import Mathlib

/-!
Shallow embedding of the docker_practice task-board application.

Server (`src/unnamed/part_001`, an Express app): CRUD handlers over either an
in-memory list `inMemoryTasks` or a MongoDB collection described by the schema
in `src/backend/src/models/Task.js`.  Client (`src/unnamed/part_000`, a React
component): derived views `groupedTasks` and `completionRate`.

Modelling conventions:
* JS timestamps (`Date.now()`, `new Date()`) are natural numbers (milliseconds).
  The POST handler reads the clock twice (once for the id, once for
  `createdAt`); both reads happen within the same handler invocation and are
  modelled by one parameter `now`.
* JS values reaching a handler from a JSON body are modelled only as finely as
  the handler inspects them: a field checked with `typeof x === "string"` is an
  `Option JsVal` (absent / a string / some non-string value); a field only fed
  to truthiness and an `includes` check is an `Option String` (`none` covers
  absent, non-string and other falsy values, which all fail those checks);
  `dueDate` is pre-composed with `new Date` parsing as
  `Option (Option Nat)`: `none` = absent or falsy, `some none` = truthy but
  unparsable, `some (some d)` = parses to the date stamp `d`.
* `String.prototype.trim` is modelled by `jsTrim`, which strips leading and
  trailing whitespace characters (`Char.isWhitespace`; JS trims a slightly
  larger Unicode set, which no claim distinguishes).
* The `catch` blocks (HTTP 500) fire only on storage/JSON failures outside the
  pure logic; `Resp.internalError` exists so that status-code distinctness can
  be stated, but no modelled handler produces it.
-/

namespace TaskBoard

/-- A JSON value as far as the handlers distinguish one: either a string or
some non-string value. -/
inductive JsVal where
  | str (s : String)
  | other
deriving DecidableEq, Repr

/-- A stored task in the in-memory mode (the exact object literal built by the
POST handler, lines 81-89 of the server file). `dueDate = none` is JS `null`. -/
@[ext]
structure Task where
  id : String
  title : String
  description : String
  priority : String
  status : String
  dueDate : Option Nat
  createdAt : Nat
deriving DecidableEq, Repr

/-- A request body as destructured by the POST and PATCH handlers:
`const { title, description, priority, status, dueDate } = req.body`. -/
structure Body where
  title : Option JsVal := none
  description : Option JsVal := none
  priority : Option String := none
  status : Option String := none
  dueDate : Option (Option Nat) := none
deriving DecidableEq, Repr

/-- The `allowedPriority` list of the server file. -/
def allowedPriority : List String := ["low", "medium", "high"]

/-- The `allowedStatus` list of the server file. -/
def allowedStatus : List String := ["todo", "in-progress", "done"]

/-- Model of `String.prototype.trim`: drop leading and trailing whitespace. -/
def jsTrim (s : String) : String :=
  ⟨((s.data.dropWhile Char.isWhitespace).reverse.dropWhile Char.isWhitespace).reverse⟩

/-- An HTTP response, as far as the handlers produce one. -/
inductive Resp where
  | ok (t : Task)
  | okList (ts : List Task)
  | created (t : Task)
  | noContent
  | badRequest (msg : String)
  | notFound (msg : String)
  | internalError (msg : String)
deriving DecidableEq, Repr

/-- The HTTP status code each response is sent with. -/
def Resp.statusCode : Resp → Nat
  | .ok _ => 200
  | .okList _ => 200
  | .created _ => 201
  | .noContent => 204
  | .badRequest _ => 400
  | .notFound _ => 404
  | .internalError _ => 500

/-- The `payload` object built by the POST handler (lines 61-78): `title`
always present (trimmed); the other fields present only when supplied and
valid. -/
structure Payload where
  title : String
  description : Option String := none
  priority : Option String := none
  status : Option String := none
  dueDate : Option Nat := none
deriving DecidableEq, Repr

/-- Lines 61-78 of the server file: build `payload` from a validated raw title
string and the rest of the body.  `description` is included only when truthy
and a string (so the empty string is skipped); `priority`/`status` only when
truthy and in the allowed list; `dueDate` only when truthy and parsable. -/
def payloadOf (title : String) (b : Body) : Payload :=
  { title := jsTrim title
    description :=
      match b.description with
      | some (.str d) => if d == "" then none else some (jsTrim d)
      | _ => none
    priority :=
      match b.priority with
      | some p => if allowedPriority.contains p then some p else none
      | none => none
    status :=
      match b.status with
      | some st => if allowedStatus.contains st then some st else none
      | none => none
    dueDate :=
      match b.dueDate with
      | some (some d) => some d
      | _ => none }

/-- The in-memory branch of `app.post("/api/tasks")` (lines 52-93).  The title
is rejected (`400 title is required`) when absent, not a string, or blank after
trimming; otherwise the new task gets defaults `description = ""`,
`priority = "medium"`, `status = "todo"`, `dueDate = null`, is assigned
`id = Date.now().toString()` and `createdAt = now`, and is prepended
(`unshift`) to the store. -/
def postTasks (b : Body) (now : Nat) (s : List Task) : Resp × List Task :=
  match b.title with
  | some (.str title) =>
    if jsTrim title == "" then (.badRequest "title is required", s)
    else
      let p := payloadOf title b
      let task : Task :=
        { id := toString now
          title := p.title
          description := p.description.getD ""
          priority := p.priority.getD "medium"
          status := p.status.getD "todo"
          dueDate := p.dueDate
          createdAt := now }
      (.created task, task :: s)
  | _ => (.badRequest "title is required", s)

/-- The `update` object of the PATCH handler (lines 115-133) applied to a
stored task by spread (`{ ...current, ...update }`, lines 141-144): a string
title or description is applied trimmed (with no blank check); a
priority/status is applied only when truthy and allowed; a truthy parsable
dueDate is applied; everything else — in particular `id` and `createdAt`,
which the handler never writes — keeps its previous value. -/
def mergeTask (t : Task) (b : Body) : Task :=
  { t with
    title :=
      match b.title with
      | some (.str s) => jsTrim s
      | _ => t.title
    description :=
      match b.description with
      | some (.str s) => jsTrim s
      | _ => t.description
    priority :=
      match b.priority with
      | some p => if allowedPriority.contains p then p else t.priority
      | none => t.priority
    status :=
      match b.status with
      | some st => if allowedStatus.contains st then st else t.status
      | none => t.status
    dueDate :=
      match b.dueDate with
      | some (some d) => some d
      | _ => t.dueDate }

/-- The `findIndex` step plus in-place replacement, as the in-memory PATCH branch does
(lines 134-147): replace the first task whose `id` matches, returning the
updated task and the new store; `none` when no task matches. -/
def patchList (i : String) (b : Body) : List Task → Option (Task × List Task)
  | [] => none
  | t :: ts =>
    if t.id == i then
      let u := mergeTask t b
      some (u, u :: ts)
    else
      match patchList i b ts with
      | none => none
      | some (u, ts') => some (u, t :: ts')

/-- The in-memory branch of `app.patch("/api/tasks/:id")` (lines 109-147):
404 when the id resolves to no stored task, otherwise the merged task is
stored and returned. -/
def patchTasks (i : String) (b : Body) (s : List Task) : Resp × List Task :=
  match patchList i b s with
  | none => (.notFound "Task not found", s)
  | some (u, s') => (.ok u, s')

/-- The `findIndex` step plus `splice(index, 1)` of the in-memory DELETE branch
(lines 173-181): remove the first task whose `id` matches; `none` when no task
matches. -/
def deleteList (i : String) : List Task → Option (List Task)
  | [] => none
  | t :: ts => if t.id == i then some ts else (deleteList i ts).map (t :: ·)

/-- The in-memory branch of `app.delete("/api/tasks/:id")` (lines 170-181):
404 when the id resolves to no stored task, otherwise 204 and the task is
removed. -/
def deleteTasks (i : String) (s : List Task) : Resp × List Task :=
  match deleteList i s with
  | none => (.notFound "Task not found", s)
  | some s' => (.noContent, s')

/-- The in-memory branch of `app.get("/api/tasks")` (lines 17-26): filter by
status when a status query is supplied (truthy), then by priority when a
priority query is supplied.  `none` covers an absent or empty query value. -/
def listTasks (status priority : Option String) (s : List Task) : List Task :=
  let s1 :=
    match status with
    | some st => s.filter (fun t => t.status == st)
    | none => s
  match priority with
  | some p => s1.filter (fun t => t.priority == p)
  | none => s1

/-- A task document created by `Task.create(payload)` in the database mode, as
determined by the mongoose schema in `src/backend/src/models/Task.js`:
`priority` and `status` carry `default` values applied when absent from the
payload, while `description` and `dueDate` have no default — a payload without
them yields a document in which they are absent (`none`). -/
structure DbTask where
  title : String
  description : Option String
  priority : String
  status : String
  dueDate : Option Nat
  createdAt : Nat
deriving DecidableEq, Repr

/-- Model of `Task.create(payload)` under the schema of `Task.js`: schema `trim: true`
re-trims the title and description (both already trimmed by the handler, so
this is idempotent), the enum fields fall back to their schema defaults
`"medium"` and `"todo"` when the payload omits them, and fields without a
schema default stay absent. -/
def dbCreate (p : Payload) (now : Nat) : DbTask :=
  { title := jsTrim p.title
    description := p.description.map jsTrim
    priority := p.priority.getD "medium"
    status := p.status.getD "todo"
    dueDate := p.dueDate
    createdAt := now }

/-- The `groups` accumulator of the client's `groupedTasks` memo
(`src/unnamed/part_000`, lines 139-149). -/
structure Groups where
  todo : List Task
  inProgress : List Task
  done : List Task
deriving DecidableEq, Repr

/-- One iteration of the client's grouping loop:
`groups[task.status]?.push(task)` — append the task to the bucket named by its
status; a status outside the three keys hits the optional chaining and the
task is dropped. -/
def pushTask (g : Groups) (t : Task) : Groups :=
  if t.status == "todo" then { g with todo := g.todo ++ [t] }
  else if t.status == "in-progress" then { g with inProgress := g.inProgress ++ [t] }
  else if t.status == "done" then { g with done := g.done ++ [t] }
  else g

/-- The client's `groupedTasks` derived view (lines 139-149): fold the task
collection into the three status buckets. -/
def groupedTasks (tasks : List Task) : Groups :=
  tasks.foldl pushTask ⟨[], [], []⟩

/-!
Binary64 model for the client's `completionRate`
(`Math.round((doneCount / tasks.length) * 100)`, lines 151-157).

A positive finite double is represented as a pair `(m, k)` standing for the
rational `m / 2 ^ k`.  `fdiv` produces the IEEE-754 binary64
round-to-nearest-even result of dividing two naturals (each itself exactly
representable, holding below `2 ^ 53`), normalised so `2 ^ 52 ≤ m ≤ 2 ^ 53`;
`fmul100` is the correctly rounded product with the exact constant `100`;
`jsRound` is `Math.round` (nearest integer, ties toward positive infinity).
No subnormal, overflow or negative case is reachable for these inputs.
-/

/-- Round `num / den` to the nearest integer, ties to even. -/
def rne (num den : Nat) : Nat :=
  let q := num / den
  let r := num % den
  if 2 * r < den then q
  else if den < 2 * r then q + 1
  else if q % 2 == 0 then q else q + 1

/-- The least `k ≤ 80` with `2 ^ 52 ≤ (d * 2 ^ k) / t`, i.e. the scaling that
brings `d / t` into the binary64 significand range. -/
def divScale (d t : Nat) : Nat :=
  (((List.range 80).find? fun k => decide (t * 2 ^ 52 ≤ d * 2 ^ k))).getD 80

/-- Binary64 division `d / t` for naturals: the correctly rounded double as a
dyadic `(significand, scale)` pair. -/
def fdiv (d t : Nat) : Nat × Nat :=
  let k := divScale d t
  (rne (d * 2 ^ k) t, k)

/-- The bit length of `p` (for `p < 2 ^ 70`): the number of exponents
`b < 70` with `2 ^ b ≤ p`. -/
def bitLen (p : Nat) : Nat :=
  ((List.range 70).filter fun b => decide (2 ^ b ≤ p)).length

/-- Binary64 multiplication of the double `(m, k)` by the constant `100`:
round the exact product back to 53 significant bits (the excess is
`bitLen p - 53` bits). -/
def fmul100 (mk : Nat × Nat) : Nat × Nat :=
  let p := 100 * mk.1
  let s := bitLen p - 53
  (rne p (2 ^ s), mk.2 - s)

/-- Model of `Math.round` on the nonnegative double `(m, k)`: nearest integer, ties
rounded up. -/
def jsRound (mk : Nat × Nat) : Nat :=
  let den := 2 ^ mk.2
  mk.1 / den + (if den ≤ 2 * (mk.1 % den) then 1 else 0)

/-- The double-precision pipeline `Math.round((d / t) * 100)`. -/
def floatRate (d t : Nat) : Nat :=
  jsRound (fmul100 (fdiv d t))

/-- The client's `completionRate` memo (lines 151-157): `0` for an empty
collection, otherwise `Math.round((doneCount / tasks.length) * 100)` computed
in binary64 floating point. -/
def completionRate (tasks : List Task) : Nat :=
  if tasks.length == 0 then 0
  else floatRate (tasks.filter fun t => t.status == "done").length tasks.length

/-- Modelled from the spec: the completion-rate formula
`round(100 * count(status==done) / total)`, defined as 0 when total is 0, with
`round` the usual half-up rounding (`Math.round` convention).  For naturals,
`round(100 * d / t) = ⌊(200 * d + t) / (2 * t)⌋`. -/
def specCompletionRate (done total : Nat) : Nat :=
  if total == 0 then 0 else (200 * done + total) / (2 * total)

/-! ### C5: create validation -/

/-- C5: a create request whose title is absent, not a string, or trims to the
empty string is rejected with HTTP 400 (validation failure) and the store is
left exactly as it was: no record is persisted. -/
theorem post_rejects_invalid_title (b : Body) (now : Nat) (s : List Task)
    (h : b.title = none ∨ b.title = some .other ∨
      ∃ str, b.title = some (.str str) ∧ jsTrim str = "") :
    (postTasks b now s).1 = .badRequest "title is required" ∧
    ((postTasks b now s).1).statusCode = 400 ∧
    (postTasks b now s).2 = s := by
  rcases h with h | h | ⟨str, h, hstr⟩
  · simp [postTasks, h, Resp.statusCode]
  · simp [postTasks, h, Resp.statusCode]
  · simp [postTasks, h, Resp.statusCode, hstr]

/-- C5 witness: a body with no title at all is rejected and the (empty) store
is unchanged. -/
theorem post_rejects_invalid_title_witness :
    (postTasks {} 7 []).1 = .badRequest "title is required" ∧
    ((postTasks {} 7 []).1).statusCode = 400 ∧
    (postTasks {} 7 []).2 = [] :=
  post_rejects_invalid_title {} 7 [] (Or.inl rfl)

/-! ### C10: not-found is atomic -/

/-- C10: whenever PATCH or DELETE answers 404 (`Task not found`), the store is
exactly what it was before the request: the handlers return before any
mutation. -/
theorem notFound_leaves_store_unchanged (s : List Task) (i : String) (b : Body) :
    ((patchTasks i b s).1 = .notFound "Task not found" → (patchTasks i b s).2 = s) ∧
    ((deleteTasks i s).1 = .notFound "Task not found" → (deleteTasks i s).2 = s) := by
  constructor
  · intro hresp
    unfold patchTasks at hresp ⊢
    cases hpl : patchList i b s with
    | none => simp [hpl]
    | some us => rw [hpl] at hresp; simp at hresp
  · intro hresp
    unfold deleteTasks at hresp ⊢
    cases hdl : deleteList i s with
    | none => simp [hdl]
    | some s' => rw [hdl] at hresp; simp at hresp

/-- C10 witness: on the empty store every id misses, and the store comes back
unchanged from both PATCH and DELETE. -/
theorem notFound_leaves_store_unchanged_witness :
    ((patchTasks "1" {} []).1 = .notFound "Task not found" → (patchTasks "1" {} []).2 = []) ∧
    ((deleteTasks "1" []).1 = .notFound "Task not found" → (deleteTasks "1" []).2 = []) :=
  notFound_leaves_store_unchanged [] "1" {}

/-! ### C4: id uniqueness fails within one millisecond -/

/-- C4: two successive in-memory creates served in the same millisecond (the
same `Date.now()` value) store two distinct tasks with the same id — the store
reaches a state in which `id` is not unique. -/
theorem duplicate_id_same_millisecond :
    ∃ t1 ∈ (postTasks { title := some (.str "second") } 1000
              (postTasks { title := some (.str "first") } 1000 []).2).2,
    ∃ t2 ∈ (postTasks { title := some (.str "second") } 1000
              (postTasks { title := some (.str "first") } 1000 []).2).2,
      t1 ≠ t2 ∧ t1.id = t2.id := by decide

/-! ### C2: creation defaults -/

/-- C2 counterexample: in the database mode, a create whose body holds only a
title yields a document whose `description` is absent (`none`) — the schema
has no default for it — not the empty string that the claim promises for both
storage modes. -/
theorem dbCreate_description_counterexample :
    (dbCreate (payloadOf "Write docs" { title := some (.str "Write docs") }) 5).description
      ≠ some "" ∧
    (dbCreate (payloadOf "Write docs" { title := some (.str "Write docs") }) 5).description
      = none := by decide

/-- C2 amended: a create whose body holds only a valid title yields, in the
in-memory mode, a stored-and-returned record with `priority = "medium"`,
`status = "todo"`, `description = ""` and `dueDate = null`; in the database
mode `priority` and `status` take the same schema defaults, but `description`
and `dueDate` are absent from the document (the schema gives them no
default), not `""` and `null`. -/
theorem create_defaults (str : String) (now : Nat) (s : List Task)
    (h : jsTrim str ≠ "") :
    (∃ task : Task,
      postTasks { title := some (.str str) } now s = (.created task, task :: s) ∧
      task.title = jsTrim str ∧ task.description = "" ∧ task.priority = "medium" ∧
      task.status = "todo" ∧ task.dueDate = none ∧ task.createdAt = now) ∧
    (dbCreate (payloadOf str { title := some (.str str) }) now).priority = "medium" ∧
    (dbCreate (payloadOf str { title := some (.str str) }) now).status = "todo" ∧
    (dbCreate (payloadOf str { title := some (.str str) }) now).description = none ∧
    (dbCreate (payloadOf str { title := some (.str str) }) now).dueDate = none := by
  have hb : (jsTrim str == "") = false := beq_eq_false_iff_ne.mpr h
  refine ⟨⟨{ id := toString now, title := jsTrim str, description := "",
             priority := "medium", status := "todo", dueDate := none,
             createdAt := now }, ?_⟩, ?_⟩ <;>
    simp [postTasks, payloadOf, dbCreate, hb]

/-- C2 witness: creating with title `"Ship it"` on the empty store. -/
theorem create_defaults_witness :
    (∃ task : Task,
      postTasks { title := some (.str "Ship it") } 3 [] = (.created task, task :: []) ∧
      task.title = jsTrim "Ship it" ∧ task.description = "" ∧ task.priority = "medium" ∧
      task.status = "todo" ∧ task.dueDate = none ∧ task.createdAt = 3) ∧
    (dbCreate (payloadOf "Ship it" { title := some (.str "Ship it") }) 3).priority = "medium" ∧
    (dbCreate (payloadOf "Ship it" { title := some (.str "Ship it") }) 3).status = "todo" ∧
    (dbCreate (payloadOf "Ship it" { title := some (.str "Ship it") }) 3).description = none ∧
    (dbCreate (payloadOf "Ship it" { title := some (.str "Ship it") }) 3).dueDate = none :=
  create_defaults "Ship it" 3 [] (by decide)

/-! ### Helper lemmas about the store operations -/

/-- When no stored task carries the requested id, `patchList` finds nothing. -/
theorem patchList_eq_none (i : String) (b : Body) :
    ∀ s : List Task, (∀ t ∈ s, t.id ≠ i) → patchList i b s = none := by
  intro s h
  induction s with
  | nil => rfl
  | cons t ts ih =>
    have ht : (t.id == i) = false := beq_eq_false_iff_ne.mpr (h t (List.mem_cons_self t ts))
    have hts := ih fun x hx => h x (List.mem_cons_of_mem t hx)
    simp [patchList, ht, hts]

/-- When no stored task carries the requested id, `deleteList` finds nothing. -/
theorem deleteList_eq_none (i : String) :
    ∀ s : List Task, (∀ t ∈ s, t.id ≠ i) → deleteList i s = none := by
  intro s h
  induction s with
  | nil => rfl
  | cons t ts ih =>
    have ht : (t.id == i) = false := beq_eq_false_iff_ne.mpr (h t (List.mem_cons_self t ts))
    have hts := ih fun x hx => h x (List.mem_cons_of_mem t hx)
    simp [deleteList, ht, hts]

/-- When `find?` locates the first task with the requested id, PATCH answers
with exactly that task merged with the body. -/
theorem patchTasks_find (i : String) (b : Body) :
    ∀ (s : List Task) (t : Task), s.find? (fun x => x.id == i) = some t →
      (patchTasks i b s).1 = .ok (mergeTask t b) := by
  intro s
  induction s with
  | nil => intro t h; simp at h
  | cons x xs ih =>
    intro t h
    rw [List.find?_cons] at h
    cases hx : (x.id == i) with
    | true =>
      rw [hx] at h
      cases h
      simp [patchTasks, patchList, hx]
    | false =>
      rw [hx] at h
      have := ih t h
      unfold patchTasks at this ⊢
      cases hpl : patchList i b xs with
      | none => rw [hpl] at this; simp at this
      | some us => rw [hpl] at this; simp [patchList, hx, hpl]; simpa using this

/-- Everything `listTasks` returns comes from the store. -/
theorem listTasks_subset (stF prF : Option String) (s : List Task) :
    ∀ t ∈ listTasks stF prF s, t ∈ s := by
  intro t ht
  unfold listTasks at ht
  cases stF <;> cases prF <;> simp_all [List.mem_filter]

/-- A sample stored task used by concrete witnesses. -/
def seedTask : Task :=
  { id := "1", title := "Write docs", description := "", priority := "medium",
    status := "todo", dueDate := none, createdAt := 0 }

/-! ### C7: not-found outcomes -/

/-- C7: a PATCH or DELETE whose id resolves to no stored task answers 404
(`Task not found`), an outcome carrying a status code distinct from
validation failure (400) and internal failure (500); the DELETE leaves the
store unchanged, and a subsequent list still contains no task with that id. -/
theorem notFound_distinct_outcome (s : List Task) (i : String) (b : Body)
    (stF prF : Option String) (h : ∀ t ∈ s, t.id ≠ i) :
    (patchTasks i b s).1 = .notFound "Task not found" ∧
    (deleteTasks i s).1 = .notFound "Task not found" ∧
    ((patchTasks i b s).1).statusCode = 404 ∧
    ((deleteTasks i s).1).statusCode = 404 ∧
    ((patchTasks i b s).1).statusCode ≠ (Resp.badRequest "title is required").statusCode ∧
    ((patchTasks i b s).1).statusCode ≠ (Resp.internalError "Failed to delete task").statusCode ∧
    (deleteTasks i s).2 = s ∧
    ∀ t ∈ listTasks stF prF (deleteTasks i s).2, t.id ≠ i := by
  have hp := patchList_eq_none i b s h
  have hd := deleteList_eq_none i s h
  have h1 : patchTasks i b s = (.notFound "Task not found", s) := by
    simp [patchTasks, hp]
  have h2 : deleteTasks i s = (.notFound "Task not found", s) := by
    simp [deleteTasks, hd]
  rw [h1, h2]
  refine ⟨rfl, rfl, rfl, rfl, by simp [Resp.statusCode], by simp [Resp.statusCode], rfl, ?_⟩
  intro t ht
  exact h t (listTasks_subset stF prF s t ht)

/-- C7 witness: deleting or patching id `"2"` on a store holding only id
`"1"`. -/
theorem notFound_distinct_outcome_witness :
    (patchTasks "2" {} [seedTask]).1 = .notFound "Task not found" ∧
    (deleteTasks "2" [seedTask]).1 = .notFound "Task not found" ∧
    ((patchTasks "2" {} [seedTask]).1).statusCode = 404 ∧
    ((deleteTasks "2" [seedTask]).1).statusCode = 404 ∧
    ((patchTasks "2" {} [seedTask]).1).statusCode
      ≠ (Resp.badRequest "title is required").statusCode ∧
    ((patchTasks "2" {} [seedTask]).1).statusCode
      ≠ (Resp.internalError "Failed to delete task").statusCode ∧
    (deleteTasks "2" [seedTask]).2 = [seedTask] ∧
    ∀ t ∈ listTasks none none (deleteTasks "2" [seedTask]).2, t.id ≠ "2" :=
  notFound_distinct_outcome [seedTask] "2" {} none none (by decide)

/-! ### C3: partial update applies only present, valid fields -/

/-- The PATCH body contributes no key to the `update` object: the title and
description are not strings, the priority and status are not in their allowed
lists, and the dueDate is absent or unparsable. -/
def noValidFields (b : Body) : Prop :=
  (∀ str, b.title ≠ some (.str str)) ∧
  (∀ str, b.description ≠ some (.str str)) ∧
  (∀ p, b.priority = some p → allowedPriority.contains p = false) ∧
  (∀ st, b.status = some st → allowedStatus.contains st = false) ∧
  (∀ d, b.dueDate ≠ some (some d))

/-- C3: when the id resolves, the PATCH response is the stored task merged
with the body, and the merge touches only fields that are present and valid:
`id` and `createdAt` are never written; an absent or non-string title or
description is dropped; a priority or status outside its allowed list is
dropped without rejecting the request; an absent or unparsable dueDate is
dropped; and a body contributing no valid field at all still succeeds,
returning the record completely unchanged. -/
theorem patch_applies_only_valid_fields (s : List Task) (i : String) (b : Body)
    (t : Task) (hfind : s.find? (fun x => x.id == i) = some t) :
    (patchTasks i b s).1 = .ok (mergeTask t b) ∧
    (mergeTask t b).id = t.id ∧
    (mergeTask t b).createdAt = t.createdAt ∧
    ((∀ str, b.title ≠ some (.str str)) → (mergeTask t b).title = t.title) ∧
    ((∀ str, b.description ≠ some (.str str)) →
      (mergeTask t b).description = t.description) ∧
    (b.priority = none → (mergeTask t b).priority = t.priority) ∧
    (∀ p, b.priority = some p → allowedPriority.contains p = false →
      (mergeTask t b).priority = t.priority) ∧
    (b.status = none → (mergeTask t b).status = t.status) ∧
    (∀ st, b.status = some st → allowedStatus.contains st = false →
      (mergeTask t b).status = t.status) ∧
    ((∀ d, b.dueDate ≠ some (some d)) → (mergeTask t b).dueDate = t.dueDate) ∧
    (noValidFields b → mergeTask t b = t ∧ (patchTasks i b s).1 = .ok t) := by
  have htitle : (∀ str, b.title ≠ some (.str str)) → (mergeTask t b).title = t.title := by
    intro h
    cases htt : b.title with
    | none => simp [mergeTask, htt]
    | some v =>
      cases v with
      | str str => exact absurd htt (h str)
      | other => simp [mergeTask, htt]
  have hdesc : (∀ str, b.description ≠ some (.str str)) →
      (mergeTask t b).description = t.description := by
    intro h
    cases hdd : b.description with
    | none => simp [mergeTask, hdd]
    | some v =>
      cases v with
      | str str => exact absurd hdd (h str)
      | other => simp [mergeTask, hdd]
  have hprio : (∀ p, b.priority = some p → allowedPriority.contains p = false) →
      (mergeTask t b).priority = t.priority := by
    intro h
    cases hpp : b.priority with
    | none => simp [mergeTask, hpp]
    | some p =>
      have hnm : p ∉ allowedPriority := by simpa using h p hpp
      simp [mergeTask, hpp, hnm]
  have hstat : (∀ st, b.status = some st → allowedStatus.contains st = false) →
      (mergeTask t b).status = t.status := by
    intro h
    cases hss : b.status with
    | none => simp [mergeTask, hss]
    | some st =>
      have hnm : st ∉ allowedStatus := by simpa using h st hss
      simp [mergeTask, hss, hnm]
  have hdue : (∀ d, b.dueDate ≠ some (some d)) →
      (mergeTask t b).dueDate = t.dueDate := by
    intro h
    cases hdu : b.dueDate with
    | none => simp [mergeTask, hdu]
    | some v =>
      cases v with
      | none => simp [mergeTask, hdu]
      | some d => exact absurd hdu (h d)
  have hresp := patchTasks_find i b s t hfind
  refine ⟨hresp, rfl, rfl, htitle, hdesc, ?_, ?_, ?_, ?_, hdue, ?_⟩
  · intro hnone
    exact hprio fun p hp => by rw [hnone] at hp; cases hp
  · intro p hp hc
    exact hprio fun p' hp' => by rw [hp] at hp'; cases hp'; exact hc
  · intro hnone
    exact hstat fun st hst => by rw [hnone] at hst; cases hst
  · intro st hst hc
    exact hstat fun st' hst' => by rw [hst] at hst'; cases hst'; exact hc
  · intro hnv
    obtain ⟨h1, h2, h3, h4, h5⟩ := hnv
    have hm : mergeTask t b = t :=
      Task.ext rfl (htitle h1) (hdesc h2) (hprio h3) (hstat h4) (hdue h5) rfl
    rw [hm] at hresp
    exact ⟨hm, hresp⟩

/-- C3 witness: patching the seeded store with an invalid priority
(`"urgent"`) and no other fields. -/
theorem patch_applies_only_valid_fields_witness :
    ([seedTask].find? (fun x => x.id == "1") = some seedTask) ∧
    (patchTasks "1" { priority := some "urgent" } [seedTask]).1
      = .ok (mergeTask seedTask { priority := some "urgent" }) ∧
    (mergeTask seedTask { priority := some "urgent" }).priority = seedTask.priority :=
  ⟨by decide,
   (patch_applies_only_valid_fields [seedTask] "1" { priority := some "urgent" }
      seedTask (by decide)).1,
   (patch_applies_only_valid_fields [seedTask] "1" { priority := some "urgent" }
      seedTask (by decide)).2.2.2.2.2.2.1 "urgent" rfl (by decide)⟩

/-! ### C1: the title invariant -/

/-- A `dropWhile` result is either the empty list or a list whose head fails the
predicate. -/
theorem dropWhile_shape {α : Type} (p : α → Bool) (l : List α) :
    l.dropWhile p = [] ∨ ∃ hd tl, l.dropWhile p = hd :: tl ∧ p hd = false := by
  induction l with
  | nil => exact Or.inl rfl
  | cons a as ih =>
    cases ha : p a with
    | true => simpa [List.dropWhile_cons, ha] using ih
    | false => exact Or.inr ⟨a, as, by simp [List.dropWhile_cons, ha], ha⟩

/-- Applying `dropWhile` twice equals applying it once. -/
theorem dropWhile_self {α : Type} (p : α → Bool) (l : List α) :
    (l.dropWhile p).dropWhile p = l.dropWhile p := by
  rcases dropWhile_shape p l with h | ⟨hd, tl, h, hhd⟩
  · simp [h]
  · rw [h]; simp [List.dropWhile_cons, hhd]

/-- Appending one element that fails the predicate commutes with
`dropWhile`. -/
theorem dropWhile_append_single {α : Type} (p : α → Bool) (b : α) (hb : p b = false) :
    ∀ l : List α, (l ++ [b]).dropWhile p = l.dropWhile p ++ [b] := by
  intro l
  induction l with
  | nil => simp [List.dropWhile_cons, hb]
  | cons a as ih =>
    cases ha : p a with
    | true => simp [List.dropWhile_cons, ha, ih]
    | false => simp [List.dropWhile_cons, ha]

/-- The two-sided trimming of a character list is idempotent. -/
theorem trimData_idem {α : Type} (p : α → Bool) (l : List α) :
    ((((((l.dropWhile p).reverse.dropWhile p).reverse).dropWhile p).reverse).dropWhile p).reverse
      = ((l.dropWhile p).reverse.dropWhile p).reverse := by
  rcases dropWhile_shape p l with h | ⟨a, as, h, ha⟩
  · simp [h]
  · rw [h, List.reverse_cons, dropWhile_append_single p a ha]
    rw [List.reverse_append]
    simp only [List.reverse_cons, List.reverse_nil, List.nil_append, List.singleton_append]
    rw [List.dropWhile_cons]
    simp only [ha, Bool.false_eq_true, if_false]
    rw [List.reverse_cons, List.reverse_reverse, dropWhile_append_single p a ha,
      dropWhile_self, List.reverse_append]
    simp

/-- The function `jsTrim` is idempotent: trimming a trimmed string changes nothing. -/
theorem jsTrim_idem (s : String) : jsTrim (jsTrim s) = jsTrim s := by
  unfold jsTrim
  congr 1
  exact trimData_idem Char.isWhitespace s.data

/-- The data-model invariant on stored titles: non-empty and not
whitespace-only (equivalently, still non-empty after trimming). -/
abbrev TitleOk (t : Task) : Prop := jsTrim t.title ≠ ""

/-- Every task in the store produced by a PATCH either was already stored or
is the merge of a stored task with the body. -/
theorem patchList_mem (i : String) (b : Body) :
    ∀ (s s' : List Task) (u : Task), patchList i b s = some (u, s') →
      ∀ x ∈ s', x ∈ s ∨ ∃ y ∈ s, x = mergeTask y b := by
  intro s
  induction s with
  | nil => intro s' u h; simp [patchList] at h
  | cons t ts ih =>
    intro s' u h x hx
    by_cases ht : (t.id == i) = true
    · simp only [patchList, ht, if_true] at h
      cases h
      rcases List.mem_cons.mp hx with rfl | hx'
      · exact Or.inr ⟨t, List.mem_cons_self t ts, rfl⟩
      · exact Or.inl (List.mem_cons_of_mem t hx')
    · simp only [patchList, ht, if_false] at h
      cases hpl : patchList i b ts with
      | none => rw [hpl] at h; cases h
      | some us =>
        obtain ⟨u', ts''⟩ := us
        rw [hpl] at h
        cases h
        rcases List.mem_cons.mp hx with rfl | hx'
        · exact Or.inl (List.mem_cons_self x ts)
        · rcases ih ts'' u hpl x hx' with hmem | ⟨y, hy, hxy⟩
          · exact Or.inl (List.mem_cons_of_mem t hmem)
          · exact Or.inr ⟨y, List.mem_cons_of_mem t hy, hxy⟩

/-- C1 counterexample: the store starts with a task whose title satisfies the
invariant; a PATCH whose body sets `title` to a whitespace-only string leaves
the stored task with the empty-string title — the PATCH handler trims a string
title without re-checking that it is non-blank. -/
theorem patch_blank_title_counterexample :
    TitleOk seedTask ∧
    ∃ t ∈ (patchTasks "1" { title := some (.str " ") } [seedTask]).2, t.title = "" := by
  decide

/-- C1 amended: once created a title is non-empty and not whitespace-only
(create rejects a missing or blank title and stores the trimmed title), and
every PATCH preserves the invariant, except that a PATCH whose body's `title`
is a string trimming to the empty string stores the empty title: preservation
holds exactly when any string title in the body trims non-empty. -/
theorem title_invariant (s : List Task) (b : Body) (now : Nat) (i : String)
    (hs : ∀ t ∈ s, TitleOk t) :
    (∀ t ∈ (postTasks b now s).2, TitleOk t) ∧
    ((∀ str, b.title = some (.str str) → jsTrim str ≠ "") →
      ∀ t ∈ (patchTasks i b s).2, TitleOk t) := by
  constructor
  · intro t ht
    cases htt : b.title with
    | none =>
      rw [show (postTasks b now s).2 = s by simp [postTasks, htt]] at ht
      exact hs t ht
    | some v =>
      cases v with
      | other =>
        rw [show (postTasks b now s).2 = s by simp [postTasks, htt]] at ht
        exact hs t ht
      | str str =>
        by_cases hg : (jsTrim str == "") = true
        · rw [show (postTasks b now s).2 = s by simp [postTasks, htt, hg]] at ht
          exact hs t ht
        · have hg' : (jsTrim str == "") = false := Bool.eq_false_iff.mpr hg
          simp only [postTasks, htt, hg', Bool.false_eq_true, if_false] at ht
          rcases List.mem_cons.mp ht with rfl | hmem
          · show jsTrim (payloadOf str b).title ≠ ""
            unfold payloadOf
            rw [jsTrim_idem]
            exact beq_eq_false_iff_ne.mp hg'
          · exact hs t hmem
  · intro hb t ht
    unfold patchTasks at ht
    cases hpl : patchList i b s with
    | none =>
      rw [hpl] at ht
      exact hs t (by simpa using ht)
    | some us =>
      obtain ⟨u, s'⟩ := us
      rw [hpl] at ht
      rcases patchList_mem i b s s' u hpl t (by simpa using ht) with hmem | ⟨y, hy, rfl⟩
      · exact hs t hmem
      · show jsTrim (mergeTask y b).title ≠ ""
        cases htt : b.title with
        | none =>
          have : (mergeTask y b).title = y.title := by simp [mergeTask, htt]
          rw [this]; exact hs y hy
        | some v =>
          cases v with
          | other =>
            have : (mergeTask y b).title = y.title := by simp [mergeTask, htt]
            rw [this]; exact hs y hy
          | str str =>
            have : (mergeTask y b).title = jsTrim str := by simp [mergeTask, htt]
            rw [this, jsTrim_idem]
            exact hb str htt

/-- C1 witness: posting and patching a title that trims non-empty on the
seeded store preserves the invariant everywhere. -/
theorem title_invariant_witness :
    (∀ t ∈ (postTasks { title := some (.str " Docs ") } 9 [seedTask]).2, TitleOk t) ∧
    ((∀ str, ({ title := some (.str " Docs ") } : Body).title = some (.str str) →
        jsTrim str ≠ "") →
      ∀ t ∈ (patchTasks "1" { title := some (.str " Docs ") } [seedTask]).2, TitleOk t) :=
  title_invariant [seedTask] { title := some (.str " Docs ") } 9 "1" (by decide)

/-! ### C6: listing is exact filtering, and reachable stores are
createdAt-descending -/

/-- One mutating request against the in-memory store.  A create carries the
`Date.now()` value observed while serving it. -/
inductive Op where
  | post (b : Body) (now : Nat)
  | patch (i : String) (b : Body)
  | del (i : String)

/-- The store effect of one request. -/
def applyOp : Op → List Task → List Task
  | .post b now, s => (postTasks b now s).2
  | .patch i b, s => (patchTasks i b s).2
  | .del i, s => (deleteTasks i s).2

/-- Run a request trace against a store. -/
def runOps : List Op → List Task → List Task
  | [], s => s
  | op :: rest, s => runOps rest (applyOp op s)

/-- The clock values observed by successive creates never decrease along the
trace (real time moves forward), starting from a lower bound `n`. -/
def timesMono : Nat → List Op → Bool
  | _, [] => true
  | n, .post _ m :: rest => decide (n ≤ m) && timesMono m rest
  | n, .patch _ _ :: rest => timesMono n rest
  | n, .del _ :: rest => timesMono n rest

/-- The store is ordered by `createdAt` descending (most recently created
first, allowing ties). -/
def SortedDesc (s : List Task) : Prop :=
  (s.map fun t => t.createdAt).Pairwise fun a b => b ≤ a

/-- Every stored task was created no later than `n`. -/
def BoundedBy (n : Nat) (s : List Task) : Prop := ∀ t ∈ s, t.createdAt ≤ n

/-- The combined GET query predicate: the status condition when a status
filter is supplied, and the priority condition when a priority filter is
supplied. -/
def matchesFilter (stF prF : Option String) (t : Task) : Bool :=
  (match stF with
   | some st => t.status == st
   | none => true) &&
  (match prF with
   | some p => t.priority == p
   | none => true)

/-- The two sequential filters of the GET handler compute exactly the
combined filter. -/
theorem listTasks_eq_filter (stF prF : Option String) (s : List Task) :
    listTasks stF prF s = s.filter (matchesFilter stF prF) := by
  unfold listTasks matchesFilter
  cases stF <;> cases prF <;>
    simp [List.filter_filter, Bool.and_comm]

/-- Filtering preserves the descending order. -/
theorem SortedDesc_filter (p : Task → Bool) (s : List Task) (h : SortedDesc s) :
    SortedDesc (s.filter p) := by
  unfold SortedDesc at h ⊢
  exact List.Pairwise.sublist (List.Sublist.map _ (List.filter_sublist s)) h

/-- A PATCH never changes the stored sequence of creation stamps: the merged
task keeps `createdAt` and its position. -/
theorem patchList_map_createdAt (i : String) (b : Body) :
    ∀ (s s' : List Task) (u : Task), patchList i b s = some (u, s') →
      s'.map (fun t => t.createdAt) = s.map (fun t => t.createdAt) := by
  intro s
  induction s with
  | nil => intro s' u h; simp [patchList] at h
  | cons t ts ih =>
    intro s' u h
    by_cases ht : (t.id == i) = true
    · simp only [patchList, ht, if_true, Option.some.injEq, Prod.mk.injEq] at h
      obtain ⟨hu, hs'⟩ := h
      rw [← hs']
      rfl
    · simp only [patchList, ht, if_false] at h
      cases hpl : patchList i b ts with
      | none => rw [hpl] at h; cases h
      | some us =>
        obtain ⟨u2, ts2⟩ := us
        rw [hpl] at h
        cases h
        simp only [List.map_cons]
        rw [ih ts2 u hpl]

/-- A DELETE leaves a sublist of the store. -/
theorem deleteList_sublist (i : String) :
    ∀ (s s' : List Task), deleteList i s = some s' → List.Sublist s' s := by
  intro s
  induction s with
  | nil => intro s' h; simp [deleteList] at h
  | cons t ts ih =>
    intro s' h
    by_cases ht : (t.id == i) = true
    · simp only [deleteList, ht, if_true, Option.some.injEq] at h
      rw [← h]
      exact List.sublist_cons_self t ts
    · simp only [deleteList, ht, if_false] at h
      cases hdl : deleteList i ts with
      | none => rw [hdl] at h; cases h
      | some ts' =>
        rw [hdl] at h
        cases h
        exact List.Sublist.cons₂ t (ih ts' hdl)

/-- A POST either leaves the store unchanged (rejected) or prepends one task
created at the observed clock value. -/
theorem post_state (b : Body) (now : Nat) (s : List Task) :
    (postTasks b now s).2 = s ∨
    ∃ task, (postTasks b now s).2 = task :: s ∧ task.createdAt = now := by
  cases htt : b.title with
  | none => exact Or.inl (by simp [postTasks, htt])
  | some v =>
    cases v with
    | other => exact Or.inl (by simp [postTasks, htt])
    | str str =>
      by_cases hg : (jsTrim str == "") = true
      · exact Or.inl (by simp [postTasks, htt, hg])
      · refine Or.inr ⟨{ id := toString now, title := (payloadOf str b).title,
                         description := (payloadOf str b).description.getD "",
                         priority := (payloadOf str b).priority.getD "medium",
                         status := (payloadOf str b).status.getD "todo",
                         dueDate := (payloadOf str b).dueDate,
                         createdAt := now }, ?_, rfl⟩
        simp [postTasks, htt, Bool.eq_false_iff.mpr hg]

/-- Any trace whose create clocks never decrease leaves the store sorted by
`createdAt` descending: creates prepend a newest stamp, patches keep every
stamp in place, deletes keep a subsequence. -/
theorem runOps_sorted : ∀ (ops : List Op) (n : Nat) (s : List Task),
    timesMono n ops = true → SortedDesc s → BoundedBy n s →
    SortedDesc (runOps ops s) := by
  intro ops
  induction ops with
  | nil => intro n s _ hs _; exact hs
  | cons op rest ih =>
    intro n s hmono hs hb
    cases op with
    | post b m =>
      rw [timesMono] at hmono
      obtain ⟨hnm, hrest⟩ := Bool.and_eq_true_iff.mp hmono
      have hnm' : n ≤ m := of_decide_eq_true hnm
      simp only [runOps, applyOp]
      rcases post_state b m s with heq | ⟨task, heq, hca⟩
      · rw [heq]
        exact ih m s hrest hs fun t ht => le_trans (hb t ht) hnm'
      · rw [heq]
        refine ih m (task :: s) hrest ?_ ?_
        · unfold SortedDesc
          rw [List.map_cons]
          refine List.Pairwise.cons ?_ hs
          intro x hx
          obtain ⟨y, hy, rfl⟩ := List.mem_map.mp hx
          rw [hca]
          exact le_trans (hb y hy) hnm'
        · intro t ht
          rcases List.mem_cons.mp ht with rfl | hmem
          · rw [hca]
          · exact le_trans (hb t hmem) hnm'
    | patch i b =>
      rw [timesMono] at hmono
      simp only [runOps, applyOp, patchTasks]
      cases hpl : patchList i b s with
      | none => exact ih n s hmono hs hb
      | some us =>
        obtain ⟨u, s'⟩ := us
        have hmap := patchList_map_createdAt i b s s' u hpl
        refine ih n s' hmono ?_ ?_
        · unfold SortedDesc
          rw [hmap]
          exact hs
        · intro t ht
          have hmm : t.createdAt ∈ s'.map (fun t => t.createdAt) :=
            List.mem_map_of_mem _ ht
          rw [hmap] at hmm
          obtain ⟨y, hy, hyx⟩ := List.mem_map.mp hmm
          rw [← hyx]
          exact hb y hy
    | del i =>
      rw [timesMono] at hmono
      simp only [runOps, applyOp, deleteTasks]
      cases hdl : deleteList i s with
      | none => exact ih n s hmono hs hb
      | some s' =>
        have hsub := deleteList_sublist i s s' hdl
        refine ih n s' hmono ?_ ?_
        · exact List.Pairwise.sublist (List.Sublist.map _ hsub) hs
        · exact fun t ht => hb t (hsub.subset ht)

/-- C6: after any trace of requests whose create clocks never decrease, the
GET handler returns exactly the stored tasks matching the supplied filters
(only the given status when a status filter is present, the intersection when
both filters are present, every task when no filter is present — the filter
equality), in store order, and that order is `createdAt` descending. -/
theorem list_exact_and_sorted (ops : List Op) (stF prF : Option String)
    (h : timesMono 0 ops = true) :
    listTasks stF prF (runOps ops []) = (runOps ops []).filter (matchesFilter stF prF) ∧
    SortedDesc (listTasks stF prF (runOps ops [])) := by
  have hs : SortedDesc (runOps ops []) :=
    runOps_sorted ops 0 [] h (List.Pairwise.nil) (fun t ht => absurd ht (List.not_mem_nil t))
  refine ⟨listTasks_eq_filter stF prF _, ?_⟩
  rw [listTasks_eq_filter]
  exact SortedDesc_filter _ _ hs

/-- A concrete request trace: two creates at increasing clock values, a patch
marking the first task done, and a delete of the second. -/
def demoOps : List Op :=
  [.post { title := some (.str "One") } 1,
   .post { title := some (.str "Two"), status := some "done" } 2,
   .patch "1" { status := some "done" },
   .del "2"]

/-- C6 witness: the demo trace has monotone create clocks, so listing with a
`done` status filter returns exactly the matching tasks in descending
creation order. -/
theorem list_exact_and_sorted_witness :
    listTasks (some "done") none (runOps demoOps [])
        = (runOps demoOps []).filter (matchesFilter (some "done") none) ∧
    SortedDesc (listTasks (some "done") none (runOps demoOps [])) :=
  list_exact_and_sorted demoOps (some "done") none (by decide)

/-! ### C8: the completion rate -/

set_option maxHeartbeats 4000000 in
/-- For every collection size below 40, the binary64 pipeline agrees with the
exact half-up rounding of `100 * done / total` (checked exhaustively). -/
theorem rate_small_check :
    ((List.range 40).all fun t =>
      (List.range (t + 1)).all fun d =>
        floatRate d t == specCompletionRate d t) = true := by
  decide

/-- Bridge from the exhaustive check: below 40 tasks, float and exact rounding
agree. -/
theorem floatRate_eq_spec (d t : Nat) (ht : t < 40) (hd : d ≤ t) :
    floatRate d t = specCompletionRate d t := by
  have h := rate_small_check
  rw [List.all_eq_true] at h
  have h1 := h t (List.mem_range.mpr ht)
  simp only [List.all_eq_true] at h1
  have h2 := h1 d (List.mem_range.mpr (Nat.lt_succ_of_le hd))
  exact beq_iff_eq.mp h2

/-- A task with the given id and status, used to build concrete collections. -/
def sampleTask (i st : String) : Task :=
  { id := i, title := "Task", description := "", priority := "medium",
    status := st, dueDate := none, createdAt := 0 }

/-- Four tasks of which two are done. -/
def fourTasks : List Task :=
  [sampleTask "1" "done", sampleTask "2" "done",
   sampleTask "3" "todo", sampleTask "4" "in-progress"]

/-- Forty tasks of which twenty-three are done. -/
def fortyTasks : List Task :=
  List.replicate 23 (sampleTask "a" "done") ++ List.replicate 17 (sampleTask "b" "todo")

/-- C8 counterexample: on 40 tasks with 23 done, the client computes
`Math.round((23/40)*100) = Math.round(57.49999999999999) = 57` in binary64,
while the spec formula `round(100*23/40) = round(57.5)` gives 58. -/
theorem completionRate_float_counterexample :
    completionRate fortyTasks = 57 ∧
    specCompletionRate (fortyTasks.filter fun t => t.status == "done").length
      fortyTasks.length = 58 := by
  constructor
  · decide
  · decide

/-- C8 amended: the completion rate is `Math.round((done/total)*100)` computed
in binary64; this equals `round(100 * done / total)` for every collection of
fewer than 40 tasks — in particular it is 0 for the empty collection and 50
for 2 done out of 4 — but not universally (23 done of 40 yields 57, not 58). -/
theorem completionRate_matches_spec_below_forty (tasks : List Task)
    (h : tasks.length < 40) :
    completionRate tasks
      = specCompletionRate (tasks.filter fun t => t.status == "done").length
          tasks.length := by
  unfold completionRate
  by_cases h0 : tasks.length = 0
  · simp [h0, specCompletionRate]
  · rw [if_neg (by simp [h0])]
    rw [specCompletionRate, if_neg (by simp [h0])]
    have := floatRate_eq_spec (tasks.filter fun t => t.status == "done").length
      tasks.length h (List.length_filter_le _ _)
    rw [this, specCompletionRate, if_neg (by simp [h0])]

/-- C8 witness: the four-task collection with two done has rate 50, matching
the exact formula. -/
theorem completionRate_matches_spec_witness :
    fourTasks.length < 40 ∧
    completionRate fourTasks
      = specCompletionRate (fourTasks.filter fun t => t.status == "done").length
          fourTasks.length ∧
    completionRate fourTasks = 50 ∧
    completionRate ([] : List Task) = 0 :=
  ⟨by decide, completionRate_matches_spec_below_forty fourTasks (by decide),
   by decide, by decide⟩

/-! ### C9: grouping partitions the collection -/

/-- The grouping fold, characterised: each bucket is the initial bucket
followed by the tasks with that status, in collection order. -/
theorem groupedTasks_go (ts : List Task) : ∀ g : Groups,
    ts.foldl pushTask g =
      ⟨g.todo ++ ts.filter (fun t => t.status == "todo"),
       g.inProgress ++ ts.filter (fun t => t.status == "in-progress"),
       g.done ++ ts.filter (fun t => t.status == "done")⟩ := by
  induction ts with
  | nil => intro g; simp
  | cons t ts ih =>
    intro g
    rw [List.foldl_cons, ih]
    unfold pushTask
    by_cases h1 : (t.status == "todo") = true
    · have e1 : t.status = "todo" := by simpa using h1
      simp [e1, List.filter_cons]
    · by_cases h2 : (t.status == "in-progress") = true
      · have e2 : t.status = "in-progress" := by simpa using h2
        simp [e2, List.filter_cons]
      · by_cases h3 : (t.status == "done") = true
        · have e3 : t.status = "done" := by simpa using h3
          simp [e3, List.filter_cons]
        · simp [h1, h2, h3, List.filter_cons]

/-- C9: the grouped view's buckets are exactly the status-filtered
subsequences of the collection (same relative order), and under the data-model
invariant that every status is one of the three enumerated values, every task
lands in exactly one bucket: the three bucket counts of any task add up to its
count in the collection. -/
theorem groupedTasks_partition (tasks : List Task)
    (h : ∀ t ∈ tasks, t.status = "todo" ∨ t.status = "in-progress" ∨ t.status = "done") :
    (groupedTasks tasks).todo = tasks.filter (fun t => t.status == "todo") ∧
    (groupedTasks tasks).inProgress = tasks.filter (fun t => t.status == "in-progress") ∧
    (groupedTasks tasks).done = tasks.filter (fun t => t.status == "done") ∧
    ∀ t : Task,
      (groupedTasks tasks).todo.count t + (groupedTasks tasks).inProgress.count t
        + (groupedTasks tasks).done.count t = tasks.count t := by
  have key := groupedTasks_go tasks ⟨[], [], []⟩
  rw [groupedTasks, key]
  refine ⟨by simp, by simp, by simp, ?_⟩
  intro t
  simp only [List.nil_append]
  have cz : ∀ st : String, t.status ≠ st →
      (tasks.filter (fun x => x.status == st)).count t = 0 := by
    intro st hne
    refine List.count_eq_zero.mpr fun hmem => ?_
    exact hne (by simpa using (List.mem_filter.mp hmem).2)
  have ce : ∀ st : String, t.status = st →
      (tasks.filter (fun x => x.status == st)).count t = tasks.count t := by
    intro st he
    exact List.count_filter (by simpa using he)
  by_cases ht : t ∈ tasks
  · rcases h t ht with h1 | h1 | h1
    · rw [ce _ h1, cz "in-progress" (by rw [h1]; decide), cz "done" (by rw [h1]; decide)]
      omega
    · rw [ce _ h1, cz "todo" (by rw [h1]; decide), cz "done" (by rw [h1]; decide)]
      omega
    · rw [ce _ h1, cz "todo" (by rw [h1]; decide), cz "in-progress" (by rw [h1]; decide)]
      omega
  · have hz : tasks.count t = 0 := List.count_eq_zero.mpr ht
    have f1 : ∀ p : Task → Bool, (tasks.filter p).count t = 0 := by
      intro p
      exact List.count_eq_zero.mpr fun hmem => ht (List.mem_filter.mp hmem).1
    rw [hz, f1, f1, f1]

/-- C9 witness: the four-task demo collection has only valid statuses and is
partitioned accordingly. -/
theorem groupedTasks_partition_witness :
    (groupedTasks fourTasks).todo = fourTasks.filter (fun t => t.status == "todo") ∧
    (groupedTasks fourTasks).inProgress
      = fourTasks.filter (fun t => t.status == "in-progress") ∧
    (groupedTasks fourTasks).done = fourTasks.filter (fun t => t.status == "done") ∧
    ∀ t : Task,
      (groupedTasks fourTasks).todo.count t + (groupedTasks fourTasks).inProgress.count t
        + (groupedTasks fourTasks).done.count t = fourTasks.count t :=
  groupedTasks_partition fourTasks (by decide)

end TaskBoard
